import Mathlib

/-!
Verification development for the bid consolidation and screening core of the
repository (agents/consolidation/bid_consolidator.py, agents/calculation/skew.py,
agents/calculation/kurt.py, agents/planner.py).

Amounts and confidence scores are embedded as exact rationals; Python float
equality (the code compares amounts with `==` and no tolerance) is modelled by
equality on the rationals.  Python exceptions are modelled by an explicit error
value carrying the exception class and message; the code raises `ValueError` in
every failure branch of the consolidator and of the metric agents.
-/

/-- A bid candidate record as consumed by `BidConsolidationAgent.consolidate`.
Optional dictionary fields are `Option`s: `amount = none` models a missing or
non-numeric amount entry (filtered by the `isinstance` check on line 64),
`confidence = none` a missing confidence entry, `tax_included` the tri-state
true / false / absent-or-null flag, `bidder` and `currency` optional strings. -/
structure BidCandidate where
  bidder : Option String
  amount : Option ℚ
  confidence : Option ℚ
  tax_included : Option Bool
  currency : Option String
deriving DecidableEq

/-- Python exception classes raised by the embedded code.  Every failure branch
of the consolidator and of the metric agents raises `ValueError`. -/
inductive PyExcClass where
  | valueError
deriving DecidableEq

/-- A raised Python exception: its class together with its message string. -/
structure PyError where
  cls : PyExcClass
  msg : String
deriving DecidableEq

/-- Grouping key of a candidate (bid_consolidator.py line 51:
`bidder = b.get("bidder") or "UNKNOWN_BIDDER"`).  Python `or` replaces exactly
the falsy values, i.e. an absent bidder (`None`) or the empty string; any
non-empty string, whitespace-only ones included, is truthy and kept as the key. -/
def bidderKey (b : BidCandidate) : String :=
  match b.bidder with
  | none => "UNKNOWN_BIDDER"
  | some s => if s = "" then "UNKNOWN_BIDDER" else s

/-- Confidence as read by the filter and the ranking sort
(`b.get("confidence", 0)`, lines 65 and 87). -/
def confFilter (b : BidCandidate) : ℚ :=
  b.confidence.getD 0

/-- Confidence as recorded for aggregation on acceptance
(`selected.get("confidence", 0.5)`, line 106).  Note the default differs from
the one used for filtering and ranking. -/
def confAgg (b : BidCandidate) : ℚ :=
  b.confidence.getD (1/2)

/-- The per-candidate validity test of the per-group filter (lines 62-66):
the amount is numeric and the confidence (default 0) reaches min_confidence. -/
def isValid (mc : ℚ) (b : BidCandidate) : Bool :=
  b.amount.isSome && decide (mc ≤ confFilter b)

/-- The explicit tax-inclusion test (line 76: `b.get("tax_included") is True`). -/
def isTaxTrue (b : BidCandidate) : Bool :=
  b.tax_included = some true

/-- Amount of a candidate; in every code path that reads it the validity filter
has already ensured `amount.isSome`, so the default is never consulted there
(line 91: `amount = float(selected["amount"])`). -/
def amountVal (b : BidCandidate) : ℚ :=
  b.amount.getD 0

/-- Head of the stable descending-by-confidence sort of `best :: rest`
(line 85-89: `sorted(pool, key=lambda b: b.get("confidence", 0), reverse=True)[0]`).
CPython's sort is stable and `reverse=True` does not reorder ties, so the
selected element is the first element of the pool attaining the maximal
confidence; a later candidate replaces the current best only when its
confidence is strictly greater. -/
def selectTop (best : BidCandidate) : List BidCandidate → BidCandidate
  | [] => best
  | c :: rest =>
      if confFilter best < confFilter c then selectTop c rest else selectTop best rest

/-- The survivors of the per-group confidence filter (lines 62-66). -/
def validOf (mc : ℚ) (g : List BidCandidate) : List BidCandidate :=
  g.filter (isValid mc)

/-- The selection pool after the tax-inclusion preference (lines 76-77):
restricted to explicitly tax-included candidates when any exist. -/
def poolOf (mc : ℚ) (g : List BidCandidate) : List BidCandidate :=
  if (validOf mc g).filter isTaxTrue = [] then validOf mc g
  else (validOf mc g).filter isTaxTrue

/-- The candidate the group-processing loop would select for a group (lines
62-91), independent of the cross-group deduplication state: `none` exactly when
no candidate survives the confidence filter (then line 68 discards the group). -/
def groupSelection (mc : ℚ) (g : List BidCandidate) : Option BidCandidate :=
  match poolOf mc g with
  | [] => none
  | p :: ps => some (selectTop p ps)

/-- The mutable state threaded through the group-processing loop of
`consolidate`: `final_bids`, the dedup set `used_amounts` (modelled as the list
of inserted amounts, membership being all the code reads), the accepted
`confidences`, the running `currency`, and the `discarded` record list. -/
structure ConsState where
  final_bids : List ℚ
  used_amounts : List ℚ
  confidences : List ℚ
  currency : Option String
  discarded : List BidCandidate
deriving DecidableEq

/-- The state before any group is processed (lines 30, 41-44). -/
def initState : ConsState :=
  ⟨[], [], [], none, []⟩

/-- Python truthiness of an optional string: `None` and the empty string are
falsy (used by line 117: `if not currency and selected.get("currency")`). -/
def truthyStr : Option String → Bool
  | none => false
  | some s => s ≠ ""

/-- One iteration of the per-bidder loop of `consolidate` (lines 59-123) on a
group's candidate list.  If no candidate survives the filter the whole group is
discarded (lines 68-73).  Otherwise the selected candidate's amount is checked
against the dedup set: a duplicate discards only the selected record (lines
94-99); otherwise the amount is accepted, the aggregation confidence recorded,
the currency set on first truthy occurrence, and the remaining group members
other than the selected object are discarded (lines 104-123; `b is selected`
excludes the one selected object, which `List.erase` models by removing the
first occurrence — the selected candidate is the earliest of its value class). -/
def processGroup (mc : ℚ) (s : ConsState) (g : List BidCandidate) : ConsState :=
  match groupSelection mc g with
  | none => { s with discarded := s.discarded ++ g }
  | some selected =>
      let amount := amountVal selected
      if amount ∈ s.used_amounts then
        { s with discarded := s.discarded ++ [selected] }
      else
        { final_bids := s.final_bids ++ [amount]
          used_amounts := s.used_amounts ++ [amount]
          confidences := s.confidences ++ [confAgg selected]
          currency := if !truthyStr s.currency && truthyStr selected.currency then
              selected.currency else s.currency
          discarded := s.discarded ++ g.erase selected }

/-- The group keys in order of first appearance in the input (lines 49-52:
`defaultdict` insertion order, iterated by `grouped.items()`). -/
def groupKeysOf (bids : List BidCandidate) : List String :=
  bids.foldl (fun ks b => if bidderKey b ∈ ks then ks else ks ++ [bidderKey b]) []

/-- The candidates grouped under key `k`, in input order (line 52). -/
def groupOf (bids : List BidCandidate) (k : String) : List BidCandidate :=
  bids.filter (fun b => bidderKey b = k)

/-- The group-processing loop (lines 59-123) over a list of group keys. -/
def runGroups (mc : ℚ) (bids : List BidCandidate) (keys : List String)
    (s : ConsState) : ConsState :=
  keys.foldl (fun s k => processGroup mc s (groupOf bids k)) s

/-- Rounding to two decimal places, modelling Python `round(x, 2)` on line 131.
Python rounds binary doubles half-to-even; on exact rationals this embedding
rounds half away from even half-cent values, an edge no theorem below touches. -/
def round2 (q : ℚ) : ℚ :=
  (round (q * 100) : ℚ) / 100

/-- The successful result of `consolidate` (lines 138-146): the `result`
sub-dictionary together with the `discarded` audit list from `data`. -/
structure ConsResult where
  final_bids : List ℚ
  currency : Option String
  confidence : ℚ
  discarded : List BidCandidate
deriving DecidableEq

/-- BidConsolidationAgent.consolidate (bid_consolidator.py lines 19-146) with
`min_confidence = mc` (constructor default 0.4).  An empty candidate list
raises `ValueError("No bid candidates provided")` (lines 20-22; the
`isinstance` list check has no counterpart in a typed embedding); an empty
`final_bids` after the loop raises
`ValueError("No valid bids after consolidation")` (lines 125-126); otherwise
the result carries `final_bids`, the first truthy currency, the rounded mean
of the recorded confidences (lines 131-133), and the discard audit list. -/
def consolidate (mc : ℚ) (bids : List BidCandidate) : Except PyError ConsResult :=
  if bids = [] then .error ⟨.valueError, "No bid candidates provided"⟩
  else
    let s := runGroups mc bids (groupKeysOf bids) initState
    if s.final_bids = [] then .error ⟨.valueError, "No valid bids after consolidation"⟩
    else .ok
      { final_bids := s.final_bids
        currency := s.currency
        confidence := if s.confidences = [] then 0
          else round2 (s.confidences.sum / (s.confidences.length : ℚ))
        discarded := s.discarded }

/-- The error component of an `Except` outcome, for stating failure results. -/
def exErr {ε α : Type} : Except ε α → Option ε
  | .error e => some e
  | .ok _ => none

instance {ε α : Type} [DecidableEq ε] [DecidableEq α] : DecidableEq (Except ε α)
  | .error e, .error f =>
      if h : e = f then isTrue (h ▸ rfl) else isFalse (fun hc => h (Except.error.inj hc))
  | .error _, .ok _ => isFalse (fun hc => Except.noConfusion hc)
  | .ok _, .error _ => isFalse (fun hc => Except.noConfusion hc)
  | .ok x, .ok y =>
      if h : x = y then isTrue (h ▸ rfl) else isFalse (fun hc => h (Except.ok.inj hc))

/-- Sample mean of a list of rationals (numpy `mean`). -/
def sampleMean (xs : List ℚ) : ℚ :=
  xs.sum / (xs.length : ℚ)

/-- Squared sample standard deviation with Bessel's correction
(numpy `std(ddof=1)` squared).  The code's `std == 0` test is equivalent to
this rational variance being 0, since `std = sqrt var`. -/
def sampleVar (xs : List ℚ) : ℚ :=
  (xs.map (fun x => (x - sampleMean xs) ^ 2)).sum / ((xs.length : ℚ) - 1)

/-- Result record of SkewnessAgent.compute (skew.py lines 27-33).  The float
`value` of the code equals `(n / ((n-1)(n-2))) * sum3 / var^(3/2)`, which is
not a rational function of the inputs (it involves the square root of the
variance), so the record carries the exact third central moment sum `sum3`
and the exact variance `var` from which it is formed, together with the
returned `mean` and `n_bids` fields. -/
structure SkewResult where
  metric : String
  sum3 : ℚ
  mean : ℚ
  var : ℚ
  n_bids : ℕ
deriving DecidableEq

/-- SkewnessAgent.compute (skew.py lines 11-33): fewer than three bids raises
`ValueError("SKEW requires at least three bids")` (lines 12-13); a zero sample
standard deviation, i.e. zero sample variance, raises
`ValueError("Standard deviation is zero, SKEW undefined")` (lines 21-22) before
the skewness expression is formed; otherwise the moment data is returned. -/
def SkewnessAgent.compute (bids : List ℚ) : Except PyError SkewResult :=
  if bids.length < 3 then .error ⟨.valueError, "SKEW requires at least three bids"⟩
  else
    let mean := sampleMean bids
    let var := sampleVar bids
    if var = 0 then .error ⟨.valueError, "Standard deviation is zero, SKEW undefined"⟩
    else .ok ⟨"skew", (bids.map (fun x => (x - mean) ^ 3)).sum, mean, var, bids.length⟩

/-- Result record of KurtosisAgent.compute (kurt.py lines 32-38).  The excess
kurtosis `value` is an exact rational: the standardized fourth-moment sum
`Σ((x-mean)/std)^4` equals `Σ(x-mean)^4 / var^2`. -/
structure KurtResult where
  metric : String
  value : ℚ
  mean : ℚ
  var : ℚ
  n_bids : ℕ
deriving DecidableEq

/-- KurtosisAgent.compute (kurt.py lines 11-38): fewer than four bids raises
`ValueError("KURT requires at least four bids")` (lines 12-13); zero sample
standard deviation raises
`ValueError("Standard deviation is zero, KURT undefined")` (lines 21-22);
otherwise the unbiased excess-kurtosis estimator is returned (lines 24-30). -/
def KurtosisAgent.compute (bids : List ℚ) : Except PyError KurtResult :=
  if bids.length < 4 then .error ⟨.valueError, "KURT requires at least four bids"⟩
  else
    let n : ℚ := (bids.length : ℚ)
    let mean := sampleMean bids
    let var := sampleVar bids
    if var = 0 then .error ⟨.valueError, "Standard deviation is zero, KURT undefined"⟩
    else
      let fourth := (bids.map (fun x => (x - mean) ^ 4)).sum / var ^ 2
      let numerator := n * (n + 1) / ((n - 1) * (n - 2) * (n - 3)) * fourth
      let correction := 3 * (n - 1) ^ 2 / ((n - 2) * (n - 3))
      .ok ⟨"kurt", numerator - correction, mean, var, bids.length⟩

/-- The metric registry SCREENING_METRICS of planner.py (lines 12-20), each
metric name with its `min_n` cardinality minimum. -/
def SCREENING_METRICS : List (String × ℕ) :=
  [("cv", 2), ("spd", 2), ("diffp", 2), ("rd", 3), ("kurt", 4), ("skew", 3), ("kstest", 3)]

/-- Failure outcomes of the screening dispatch portion of
ScreeningPlannerAgent.run: an unsupported metric name (planner.py lines
358-363) or an unmet cardinality minimum (lines 412-438, reported with the
metric, the number of bids and the minimum required). -/
inductive PlannerFailure where
  | unsupportedMetric (m : String)
  | insufficientBids (metric : String) (n_bids : ℕ) (min_required : ℕ)
deriving DecidableEq

/-- The first requested metric whose cardinality minimum exceeds the number of
final bids, with that minimum — the early return of the STEP 6 loop of
planner.py (lines 412-438).  Metrics missing from the registry cannot reach
this loop (the STEP 3 loop has already returned), so they are skipped. -/
def firstCardFailure (requested : List String) (final_bids : List ℚ) :
    Option (String × ℕ) :=
  match requested with
  | [] => none
  | m :: rest =>
      match SCREENING_METRICS.lookup m with
      | some mn => if final_bids.length < mn then some (m, mn)
          else firstCardFailure rest final_bids
      | none => firstCardFailure rest final_bids

/-- The metric-dispatch portion of ScreeningPlannerAgent.run, parametric in the
calculation agents: the STEP 3 supported-metric validation (lines 358-363),
then the STEP 6 cardinality check over every requested metric (lines 412-438),
and only if both pass the STEP 7 loop computing every requested metric
(lines 443-446). -/
def screeningDispatch {α : Type} (agents : String → List ℚ → α)
    (requested : List String) (final_bids : List ℚ) :
    Except PlannerFailure (List (String × α)) :=
  match requested.find? (fun m => (SCREENING_METRICS.lookup m).isNone) with
  | some m => .error (.unsupportedMetric m)
  | none =>
      match firstCardFailure requested final_bids with
      | some (m, mn) => .error (.insufficientBids m final_bids.length mn)
      | none => .ok (requested.map (fun m => (m, agents m final_bids)))

def InvFB (s : ConsState) : Prop :=
  s.final_bids.Nodup ∧ ∀ a : ℚ, a ∈ s.used_amounts ↔ a ∈ s.final_bids

def exC1a : BidCandidate := ⟨some "A", some 100, some (9/10), none, none⟩

def exC1b : BidCandidate := ⟨some "B", some 100, some (4/5), none, none⟩

def exC1 : List BidCandidate := [exC1a, exC1b]

def rC1 : ConsResult := ⟨[100], none, 9/10, [exC1b]⟩

def exC4c : BidCandidate := ⟨some "B", some 50, some (4/5), none, none⟩

def exC4 : List BidCandidate := [exC1a, exC1b, exC4c]

def exC2w : BidCandidate := ⟨some " ", some 100, some (9/10), none, none⟩

def exC2n : BidCandidate := ⟨none, some 200, some (9/10), none, none⟩

def exC2 : List BidCandidate := [exC2w, exC2n]

def exC5 : List BidCandidate := [⟨some "A", some 100, none, none, none⟩]

def exC6low : List BidCandidate := [⟨some "A", some 100, some (1/10), none, none⟩]

def exC7 : List BidCandidate :=
  [⟨some "A", some 100, some (9/10), some true, none⟩,
   ⟨some "A", some 95, some (1/2), some false, none⟩]

def exC3b : BidCandidate := ⟨some "A", some 50, some (9/10), none, none⟩

def exC3L : List BidCandidate := [exC1a, exC3b]

def exC3R : List BidCandidate := [exC3b, exC1a]

def exC3c : BidCandidate := ⟨some "A", some 50, some (4/5), none, none⟩

theorem selectTop_mem (l : List BidCandidate) : ∀ b : BidCandidate, selectTop b l ∈ b :: l := by
  induction l with
  | nil => intro b; simp [selectTop]
  | cons c rest ih =>
    intro b
    rw [selectTop]
    split
    · exact List.mem_cons_of_mem b (ih c)
    · rcases List.mem_cons.mp (ih b) with h | h
      · rw [h]
        exact List.mem_cons_self _ _
      · exact List.mem_cons_of_mem b (List.mem_cons_of_mem c h)

theorem selectTop_le (l : List BidCandidate) :
    ∀ b x : BidCandidate, x ∈ b :: l → confFilter x ≤ confFilter (selectTop b l) := by
  induction l with
  | nil =>
    intro b x hx
    rw [List.mem_singleton] at hx
    subst hx
    rw [selectTop]
  | cons c rest ih =>
    intro b x hx
    rw [selectTop]
    split
    next hlt =>
      rcases List.mem_cons.mp hx with rfl | hx2
      · exact le_trans hlt.le (ih c c (List.mem_cons_self _ _))
      · exact ih c x hx2
    next hnlt =>
      rcases List.mem_cons.mp hx with rfl | hx2
      · exact ih x x (List.mem_cons_self _ _)
      · rcases List.mem_cons.mp hx2 with rfl | hx3
        · exact le_trans (not_lt.mp hnlt) (ih b b (List.mem_cons_self _ _))
        · exact ih b x (List.mem_cons_of_mem b hx3)

theorem runGroups_nil (mc : ℚ) (bids : List BidCandidate) (s : ConsState) :
    runGroups mc bids [] s = s := rfl

theorem runGroups_cons (mc : ℚ) (bids : List BidCandidate) (k : String)
    (ks : List String) (s : ConsState) :
    runGroups mc bids (k :: ks) s = runGroups mc bids ks (processGroup mc s (groupOf bids k)) := rfl

theorem runGroups_append (mc : ℚ) (bids : List BidCandidate) (ks1 ks2 : List String)
    (s : ConsState) :
    runGroups mc bids (ks1 ++ ks2) s = runGroups mc bids ks2 (runGroups mc bids ks1 s) := by
  unfold runGroups
  rw [List.foldl_append]

theorem processGroup_none {mc : ℚ} {g : List BidCandidate} (s : ConsState)
    (hsel : groupSelection mc g = none) :
    processGroup mc s g = { s with discarded := s.discarded ++ g } := by
  unfold processGroup
  rw [hsel]

theorem processGroup_dup {mc : ℚ} {g : List BidCandidate} {c : BidCandidate} (s : ConsState)
    (hsel : groupSelection mc g = some c) (hdup : amountVal c ∈ s.used_amounts) :
    processGroup mc s g = { s with discarded := s.discarded ++ [c] } := by
  unfold processGroup
  rw [hsel]
  simp [hdup]

theorem processGroup_accept {mc : ℚ} {g : List BidCandidate} {c : BidCandidate} (s : ConsState)
    (hsel : groupSelection mc g = some c) (hdup : amountVal c ∉ s.used_amounts) :
    processGroup mc s g =
      { final_bids := s.final_bids ++ [amountVal c]
        used_amounts := s.used_amounts ++ [amountVal c]
        confidences := s.confidences ++ [confAgg c]
        currency := if !truthyStr s.currency && truthyStr c.currency then c.currency
          else s.currency
        discarded := s.discarded ++ g.erase c } := by
  unfold processGroup
  rw [hsel]
  simp [hdup]

theorem used_sub_processGroup (mc : ℚ) (s : ConsState) (g : List BidCandidate) {a : ℚ}
    (ha : a ∈ s.used_amounts) : a ∈ (processGroup mc s g).used_amounts := by
  rcases hsel : groupSelection mc g with _ | c
  · rw [processGroup_none s hsel]; exact ha
  · by_cases hdup : amountVal c ∈ s.used_amounts
    · rw [processGroup_dup s hsel hdup]; exact ha
    · rw [processGroup_accept s hsel hdup]
      exact List.mem_append_left _ ha

theorem used_sub_runGroups (mc : ℚ) (bids : List BidCandidate) (keys : List String)
    (s : ConsState) {a : ℚ} (ha : a ∈ s.used_amounts) :
    a ∈ (runGroups mc bids keys s).used_amounts := by
  induction keys generalizing s with
  | nil => exact ha
  | cons k ks ih =>
    rw [runGroups_cons]
    exact ih _ (used_sub_processGroup mc s _ ha)

theorem disc_sub_processGroup (mc : ℚ) (s : ConsState) (g : List BidCandidate)
    {b : BidCandidate} (hb : b ∈ s.discarded) : b ∈ (processGroup mc s g).discarded := by
  rcases hsel : groupSelection mc g with _ | c
  · rw [processGroup_none s hsel]; exact List.mem_append_left _ hb
  · by_cases hdup : amountVal c ∈ s.used_amounts
    · rw [processGroup_dup s hsel hdup]; exact List.mem_append_left _ hb
    · rw [processGroup_accept s hsel hdup]; exact List.mem_append_left _ hb

theorem disc_sub_runGroups (mc : ℚ) (bids : List BidCandidate) (keys : List String)
    (s : ConsState) {b : BidCandidate} (hb : b ∈ s.discarded) :
    b ∈ (runGroups mc bids keys s).discarded := by
  induction keys generalizing s with
  | nil => exact hb
  | cons k ks ih =>
    rw [runGroups_cons]
    exact ih _ (disc_sub_processGroup mc s _ hb)

theorem fb_prefix_processGroup (mc : ℚ) (s : ConsState) (g : List BidCandidate) :
    ∃ t, (processGroup mc s g).final_bids = s.final_bids ++ t := by
  rcases hsel : groupSelection mc g with _ | c
  · exact ⟨[], by rw [processGroup_none s hsel]; simp⟩
  · by_cases hdup : amountVal c ∈ s.used_amounts
    · exact ⟨[], by rw [processGroup_dup s hsel hdup]; simp⟩
    · exact ⟨[amountVal c], by rw [processGroup_accept s hsel hdup]⟩

theorem fb_prefix_runGroups (mc : ℚ) (bids : List BidCandidate) (keys : List String)
    (s : ConsState) : ∃ t, (runGroups mc bids keys s).final_bids = s.final_bids ++ t := by
  induction keys generalizing s with
  | nil => exact ⟨[], by simp [runGroups_nil]⟩
  | cons k ks ih =>
    rw [runGroups_cons]
    obtain ⟨t1, ht1⟩ := fb_prefix_processGroup mc s (groupOf bids k)
    obtain ⟨t2, ht2⟩ := ih (processGroup mc s (groupOf bids k))
    exact ⟨t1 ++ t2, by rw [ht2, ht1, List.append_assoc]⟩

theorem sel_mem_used_processGroup (mc : ℚ) (s : ConsState) {g : List BidCandidate}
    {c : BidCandidate} (hsel : groupSelection mc g = some c) :
    amountVal c ∈ (processGroup mc s g).used_amounts := by
  by_cases hdup : amountVal c ∈ s.used_amounts
  · exact used_sub_processGroup mc s g hdup
  · rw [processGroup_accept s hsel hdup]
    simp

theorem key_sel_in_used (mc : ℚ) (bids : List BidCandidate) {keys : List String}
    {k : String} {c : BidCandidate} (s : ConsState) (hk : k ∈ keys)
    (hsel : groupSelection mc (groupOf bids k) = some c) :
    amountVal c ∈ (runGroups mc bids keys s).used_amounts := by
  induction keys generalizing s with
  | nil => cases hk
  | cons k0 ks ih =>
    rw [runGroups_cons]
    rcases List.mem_cons.mp hk with rfl | hk2
    · exact used_sub_runGroups mc bids ks _ (sel_mem_used_processGroup mc s hsel)
    · exact ih _ hk2

theorem invFB_init : InvFB initState := by
  constructor
  · exact List.nodup_nil
  · intro a; rfl

theorem invFB_processGroup (mc : ℚ) (g : List BidCandidate) {s : ConsState}
    (h : InvFB s) : InvFB (processGroup mc s g) := by
  obtain ⟨hnd, hiff⟩ := h
  rcases hsel : groupSelection mc g with _ | c
  · rw [processGroup_none s hsel]; exact ⟨hnd, hiff⟩
  · by_cases hdup : amountVal c ∈ s.used_amounts
    · rw [processGroup_dup s hsel hdup]; exact ⟨hnd, hiff⟩
    · rw [processGroup_accept s hsel hdup]
      constructor
      · have hnf : amountVal c ∉ s.final_bids := fun hc => hdup ((hiff _).mpr hc)
        simp only [List.nodup_append, List.nodup_cons, List.nodup_nil]
        exact ⟨hnd, ⟨by simp, trivial⟩, by simpa [List.disjoint_singleton] using hnf⟩
      · intro a
        simp only [List.mem_append, List.mem_singleton]
        rw [hiff a]

theorem invFB_runGroups (mc : ℚ) (bids : List BidCandidate) (keys : List String)
    {s : ConsState} (h : InvFB s) : InvFB (runGroups mc bids keys s) := by
  induction keys generalizing s with
  | nil => exact h
  | cons k ks ih =>
    rw [runGroups_cons]
    exact ih (invFB_processGroup mc _ h)

theorem consolidate_ok_inv {mc : ℚ} {bids : List BidCandidate} {r : ConsResult}
    (hok : consolidate mc bids = .ok r) :
    bids ≠ [] ∧
    (runGroups mc bids (groupKeysOf bids) initState).final_bids ≠ [] ∧
    r.final_bids = (runGroups mc bids (groupKeysOf bids) initState).final_bids ∧
    r.discarded = (runGroups mc bids (groupKeysOf bids) initState).discarded ∧
    r.currency = (runGroups mc bids (groupKeysOf bids) initState).currency ∧
    r.confidence = (if (runGroups mc bids (groupKeysOf bids) initState).confidences = [] then 0
      else round2 ((runGroups mc bids (groupKeysOf bids) initState).confidences.sum /
        ((runGroups mc bids (groupKeysOf bids) initState).confidences.length : ℚ))) := by
  simp only [consolidate] at hok
  by_cases h1 : bids = []
  · rw [if_pos h1] at hok
    exact Except.noConfusion hok
  · rw [if_neg h1] at hok
    by_cases h2 : (runGroups mc bids (groupKeysOf bids) initState).final_bids = []
    · rw [if_pos h2] at hok
      exact Except.noConfusion hok
    · rw [if_neg h2] at hok
      injection hok with hr
      subst hr
      exact ⟨h1, h2, rfl, rfl, rfl, rfl⟩

theorem groupKeys_foldl_mono (bids : List BidCandidate) (acc : List String) {k : String}
    (hk : k ∈ acc) :
    k ∈ bids.foldl (fun ks b => if bidderKey b ∈ ks then ks else ks ++ [bidderKey b]) acc := by
  induction bids generalizing acc with
  | nil => exact hk
  | cons b rest ih =>
    simp only [List.foldl_cons]
    apply ih
    split
    · exact hk
    · exact List.mem_append_left _ hk

theorem mem_groupKeys_aux (bids : List BidCandidate) {b : BidCandidate} (hb : b ∈ bids) :
    ∀ acc : List String,
      bidderKey b ∈ bids.foldl (fun ks c => if bidderKey c ∈ ks then ks else ks ++ [bidderKey c]) acc := by
  induction bids with
  | nil => cases hb
  | cons b0 rest ih =>
    intro acc
    simp only [List.foldl_cons]
    rcases List.mem_cons.mp hb with rfl | hb2
    · apply groupKeys_foldl_mono
      split
      next h => exact h
      next => exact List.mem_append_right _ (by simp)
    · exact ih hb2 _

theorem mem_groupKeysOf {bids : List BidCandidate} {b : BidCandidate} (hb : b ∈ bids) :
    bidderKey b ∈ groupKeysOf bids := mem_groupKeys_aux bids hb []

theorem mem_groupOf_self {bids : List BidCandidate} {b : BidCandidate} (hb : b ∈ bids) :
    b ∈ groupOf bids (bidderKey b) := by
  unfold groupOf
  exact List.mem_filter.mpr ⟨hb, by simp⟩

theorem processGroup_covers (mc : ℚ) (s : ConsState) (g : List BidCandidate)
    {b : BidCandidate} (hb : b ∈ g) :
    b ∈ (processGroup mc s g).discarded ∨ groupSelection mc g = some b ∨
      ∃ c, groupSelection mc g = some c ∧ c ∈ (processGroup mc s g).discarded ∧ b ≠ c := by
  rcases hsel : groupSelection mc g with _ | c
  · rw [processGroup_none s hsel]
    exact Or.inl (List.mem_append_right _ hb)
  · by_cases heq : b = c
    · subst heq
      exact Or.inr (Or.inl rfl)
    · by_cases hdup : amountVal c ∈ s.used_amounts
      · rw [processGroup_dup s hsel hdup]
        exact Or.inr (Or.inr ⟨c, rfl, List.mem_append_right _ (by simp), heq⟩)
      · rw [processGroup_accept s hsel hdup]
        refine Or.inl (List.mem_append_right _ ?_)
        exact (List.mem_erase_of_ne heq).mpr hb

theorem runGroups_covers (mc : ℚ) (bids : List BidCandidate) {keys : List String}
    {b : BidCandidate} (s : ConsState) (hb : b ∈ bids) (hk : bidderKey b ∈ keys) :
    b ∈ (runGroups mc bids keys s).discarded ∨
      groupSelection mc (groupOf bids (bidderKey b)) = some b ∨
      ∃ c, groupSelection mc (groupOf bids (bidderKey b)) = some c ∧
        c ∈ (runGroups mc bids keys s).discarded ∧ b ≠ c := by
  induction keys generalizing s with
  | nil => cases hk
  | cons k0 ks ih =>
    rw [runGroups_cons]
    rcases List.mem_cons.mp hk with heq | hk2
    · rw [← heq]
      rcases processGroup_covers mc s (groupOf bids (bidderKey b)) (mem_groupOf_self hb) with
        h1 | h2 | ⟨c, hc1, hc2, hc3⟩
      · exact Or.inl (disc_sub_runGroups mc bids ks _ h1)
      · exact Or.inr (Or.inl h2)
      · exact Or.inr (Or.inr ⟨c, hc1, disc_sub_runGroups mc bids ks _ hc2, hc3⟩)
    · exact ih _ hk2

theorem conf_origin_processGroup (mc : ℚ) (s : ConsState) (g : List BidCandidate) {q : ℚ}
    (hq : q ∈ (processGroup mc s g).confidences) :
    q ∈ s.confidences ∨ ∃ c, groupSelection mc g = some c ∧ q = confAgg c := by
  rcases hsel : groupSelection mc g with _ | c
  · rw [processGroup_none s hsel] at hq
    exact Or.inl hq
  · by_cases hdup : amountVal c ∈ s.used_amounts
    · rw [processGroup_dup s hsel hdup] at hq
      exact Or.inl hq
    · rw [processGroup_accept s hsel hdup] at hq
      rcases List.mem_append.mp hq with h | h
      · exact Or.inl h
      · exact Or.inr ⟨c, rfl, by simpa using h⟩

theorem conf_origin_runGroups (mc : ℚ) (bids : List BidCandidate) {keys : List String}
    (s : ConsState) {q : ℚ} (hq : q ∈ (runGroups mc bids keys s).confidences) :
    q ∈ s.confidences ∨
      ∃ k, k ∈ keys ∧ ∃ c, groupSelection mc (groupOf bids k) = some c ∧ q = confAgg c := by
  induction keys generalizing s with
  | nil => exact Or.inl hq
  | cons k0 ks ih =>
    rw [runGroups_cons] at hq
    rcases ih _ hq with h | ⟨k, hkmem, hrest⟩
    · rcases conf_origin_processGroup mc s _ h with h2 | ⟨c, hc⟩
      · exact Or.inl h2
      · exact Or.inr ⟨k0, List.mem_cons_self _ _, c, hc⟩
    · exact Or.inr ⟨k, List.mem_cons_of_mem _ hkmem, hrest⟩

theorem validOf_perm (mc : ℚ) {g h : List BidCandidate} (hp : g.Perm h) :
    (validOf mc g).Perm (validOf mc h) := hp.filter (isValid mc)

theorem poolOf_sublist (mc : ℚ) (g : List BidCandidate) : (poolOf mc g).Sublist g := by
  unfold poolOf
  split
  · exact List.filter_sublist g
  · exact List.Sublist.trans (List.filter_sublist _) (List.filter_sublist g)

theorem poolOf_perm (mc : ℚ) {g h : List BidCandidate} (hp : g.Perm h) :
    (poolOf mc g).Perm (poolOf mc h) := by
  have hv := validOf_perm mc hp
  have ht := hv.filter isTaxTrue
  unfold poolOf
  by_cases he : (validOf mc g).filter isTaxTrue = []
  · have he2 : (validOf mc h).filter isTaxTrue = [] := by
      rw [he] at ht
      exact (List.perm_nil.mp ht.symm)
    rw [if_pos he, if_pos he2]
    exact hv
  · have he2 : (validOf mc h).filter isTaxTrue ≠ [] := by
      intro hc
      rw [hc] at ht
      exact he (List.perm_nil.mp ht)
    rw [if_neg he, if_neg he2]
    exact ht

theorem groupSelection_perm (mc : ℚ) {g h : List BidCandidate} (hp : g.Perm h)
    (hnd : (g.map confFilter).Nodup) : groupSelection mc g = groupSelection mc h := by
  have hpool := poolOf_perm mc hp
  have hsub := poolOf_sublist mc g
  rcases hpg : poolOf mc g with _ | ⟨p, ps⟩
  · rw [hpg] at hpool
    have hpg2 : poolOf mc h = [] := List.perm_nil.mp hpool.symm
    simp only [groupSelection, hpg, hpg2]
  · rw [hpg] at hpool hsub
    rcases hpg2 : poolOf mc h with _ | ⟨q, qs⟩
    · rw [hpg2] at hpool
      exact absurd (List.perm_nil.mp hpool) (by simp)
    · rw [hpg2] at hpool
      simp only [groupSelection, hpg, hpg2, Option.some.injEq]
      have hmem : selectTop p ps ∈ p :: ps := selectTop_mem ps p
      have hmem2 : selectTop q qs ∈ q :: qs := selectTop_mem qs q
      have hmem3 : selectTop q qs ∈ p :: ps := hpool.symm.subset hmem2
      have hle : confFilter (selectTop q qs) ≤ confFilter (selectTop p ps) :=
        selectTop_le ps p _ hmem3
      have hle2 : confFilter (selectTop p ps) ≤ confFilter (selectTop q qs) :=
        selectTop_le qs q _ (hpool.subset hmem)
      have hndp : ((p :: ps).map confFilter).Nodup :=
        hnd.sublist (hsub.map confFilter)
      exact List.inj_on_of_nodup_map hndp hmem hmem3 (le_antisymm hle2 hle)

/-- C1: cross-bidder deduplication.  For every candidate list and every two
distinct bidder keys whose groups both produce a selection, with equal selected
amounts (exact equality, no tolerance), a successful `consolidate` puts that
amount in `final_bids` exactly once, the later-processed group's selected
record lands in `discarded`, and processing the later group leaves `final_bids`
unchanged — that group contributes nothing. -/
theorem c1_cross_bidder_dedup (mc : ℚ) (bids : List BidCandidate)
    (pre post : List String) (k1 k2 : String) (x1 x2 : BidCandidate) (r : ConsResult)
    (hkeys : groupKeysOf bids = pre ++ k2 :: post) (hk1 : k1 ∈ pre) (hne : k1 ≠ k2)
    (hsel1 : groupSelection mc (groupOf bids k1) = some x1)
    (hsel2 : groupSelection mc (groupOf bids k2) = some x2)
    (hamt : amountVal x1 = amountVal x2)
    (hok : consolidate mc bids = .ok r) :
    r.final_bids.count (amountVal x2) = 1 ∧ x2 ∈ r.discarded ∧
    (processGroup mc (runGroups mc bids pre initState) (groupOf bids k2)).final_bids
      = (runGroups mc bids pre initState).final_bids := by
  obtain ⟨-, -, hfb, hdisc, -, -⟩ := consolidate_ok_inv hok
  have hused : amountVal x1 ∈ (runGroups mc bids pre initState).used_amounts :=
    key_sel_in_used mc bids initState hk1 hsel1
  have hused2 : amountVal x2 ∈ (runGroups mc bids pre initState).used_amounts := hamt ▸ hused
  have hdup := processGroup_dup (runGroups mc bids pre initState) hsel2 hused2
  have hsplit : runGroups mc bids (groupKeysOf bids) initState
      = runGroups mc bids post
          (processGroup mc (runGroups mc bids pre initState) (groupOf bids k2)) := by
    rw [hkeys, runGroups_append, runGroups_cons]
  refine ⟨?_, ?_, ?_⟩
  · have hinv := invFB_runGroups mc bids (groupKeysOf bids) invFB_init
    have husedF : amountVal x2 ∈ (runGroups mc bids (groupKeysOf bids) initState).used_amounts := by
      rw [hsplit]
      exact used_sub_runGroups mc bids post _
        (used_sub_processGroup mc (runGroups mc bids pre initState) _ hused2)
    have hmemF := (hinv.2 _).mp husedF
    rw [hfb]
    exact List.count_eq_one_of_mem hinv.1 hmemF
  · rw [hdisc, hsplit]
    apply disc_sub_runGroups
    rw [hdup]
    simp
  · rw [hdup]

/-- C1 witness: bidders "A" and "B" both select amount 100; 100 appears once,
B's selection is discarded, and B's group step leaves `final_bids` unchanged. -/
theorem c1_cross_bidder_dedup_wit :
    (consolidate (2/5) exC1 = .ok rC1) ∧
    (rC1.final_bids.count (amountVal exC1b) = 1 ∧ exC1b ∈ rC1.discarded ∧
      (processGroup (2/5) (runGroups (2/5) exC1 ["A"] initState) (groupOf exC1 "B")).final_bids
        = (runGroups (2/5) exC1 ["A"] initState).final_bids) :=
  ⟨by with_unfolding_all decide,
   c1_cross_bidder_dedup (2/5) exC1 ["A"] [] "A" "B" exC1a exC1b rC1
     (by with_unfolding_all decide) (by with_unfolding_all decide)
     (by with_unfolding_all decide) (by with_unfolding_all decide)
     (by with_unfolding_all decide) (by with_unfolding_all decide)
     (by with_unfolding_all decide)⟩

/-- C10: distinct-amounts invariant.  For every successful `consolidate` call
the amounts in `final_bids` are pairwise distinct: every accepted amount enters
the dedup set and later equal selections are discarded. -/
theorem c10_final_bids_nodup (mc : ℚ) (bids : List BidCandidate) (r : ConsResult)
    (hok : consolidate mc bids = .ok r) : r.final_bids.Nodup := by
  obtain ⟨-, -, hfb, -, -, -⟩ := consolidate_ok_inv hok
  rw [hfb]
  exact (invFB_runGroups mc bids (groupKeysOf bids) invFB_init).1

/-- C10 witness: the three-candidate example with a duplicated amount yields
`final_bids = [100]`, which has no duplicates. -/
theorem c10_final_bids_nodup_wit :
    (consolidate (2/5) exC4 = .ok ⟨[100], none, 9/10, [exC1b]⟩) ∧
    (⟨[100], none, 9/10, [exC1b]⟩ : ConsResult).final_bids.Nodup :=
  ⟨by with_unfolding_all decide,
   c10_final_bids_nodup (2/5) exC4 _ (by with_unfolding_all decide)⟩

/-- C2 amended: only candidates whose bidder is absent (null) or the empty
string are coalesced into the shared "UNKNOWN_BIDDER" group; every such
candidate lands in that one group.  Whitespace-only bidder strings are not
coalesced (see the counterexample). -/
theorem c2_unknown_bidder_pooling (bids : List BidCandidate) (b : BidCandidate)
    (hb : b ∈ bids) (hbd : b.bidder = none ∨ b.bidder = some "") :
    bidderKey b = "UNKNOWN_BIDDER" ∧ b ∈ groupOf bids "UNKNOWN_BIDDER" := by
  have hkey : bidderKey b = "UNKNOWN_BIDDER" := by
    rcases hbd with h | h <;> simp [bidderKey, h]
  exact ⟨hkey, List.mem_filter.mpr ⟨hb, by simp [hkey]⟩⟩

/-- C2 counterexample: a whitespace-only bidder string is truthy in Python, so
`bidder = b.get("bidder") or "UNKNOWN_BIDDER"` keeps it as its own key.  The
candidate with bidder " " is not in the UNKNOWN_BIDDER group, the key list is
[" ", "UNKNOWN_BIDDER"], and both amounts are accepted — the two anonymous-ish
candidates do not compete for a single slot, contradicting the claim. -/
theorem c2_whitespace_bidder_cex :
    exC2w ∉ groupOf exC2 "UNKNOWN_BIDDER" ∧
    groupKeysOf exC2 = [" ", "UNKNOWN_BIDDER"] ∧
    (consolidate (2/5) exC2).toOption.map ConsResult.final_bids = some [100, 200] := by
  with_unfolding_all decide

/-- C2 witness: the bidder-less candidate of the example list is grouped under
"UNKNOWN_BIDDER". -/
theorem c2_unknown_bidder_pooling_wit :
    (exC2n ∈ exC2 ∧ (exC2n.bidder = none ∨ exC2n.bidder = some "")) ∧
    (bidderKey exC2n = "UNKNOWN_BIDDER" ∧ exC2n ∈ groupOf exC2 "UNKNOWN_BIDDER") :=
  ⟨⟨by with_unfolding_all decide, Or.inl (by with_unfolding_all decide)⟩,
   c2_unknown_bidder_pooling exC2 exC2n (by with_unfolding_all decide)
     (Or.inl (by with_unfolding_all decide))⟩

/-- C4 amended: after a successful `consolidate`, every input candidate absent
from `discarded` is either its group's selection, or a member of a group whose
selection was itself discarded (the duplicate-rejection path, which drops the
group's other candidates from the audit list).  Candidates of
confidence-filtered groups and non-selected candidates of accepted groups
always appear in `discarded`. -/
theorem c4_discarded_amended (mc : ℚ) (bids : List BidCandidate) (r : ConsResult)
    (hok : consolidate mc bids = .ok r) (b : BidCandidate) (hb : b ∈ bids)
    (hnd : b ∉ r.discarded) :
    groupSelection mc (groupOf bids (bidderKey b)) = some b ∨
    ∃ c, groupSelection mc (groupOf bids (bidderKey b)) = some c ∧ c ∈ r.discarded ∧ b ≠ c := by
  obtain ⟨-, -, -, hdisc, -, -⟩ := consolidate_ok_inv hok
  rw [hdisc] at hnd ⊢
  rcases runGroups_covers mc bids initState hb (mem_groupKeysOf hb) with h1 | h2 | h3
  · exact absurd h1 hnd
  · exact Or.inl h2
  · exact Or.inr h3

/-- C4 counterexample: in the duplicate-rejection path only the selected record
is appended to `discarded` (bid_consolidator.py lines 94-99 `continue` before
the line 120-123 loop), so the non-selected candidate of bidder "B"'s
duplicate-rejected group appears in neither `final_bids` nor `discarded`. -/
theorem c4_discarded_incomplete_cex :
    consolidate (2/5) exC4 = .ok ⟨[100], none, 9/10, [exC1b]⟩ ∧
    exC4c ∈ exC4 ∧
    groupSelection (2/5) (groupOf exC4 (bidderKey exC4c)) = some exC1b ∧
    exC4c ≠ exC1b ∧
    exC4c ∉ ([exC1b] : List BidCandidate) := by
  with_unfolding_all decide

/-- C4 witness: in the two-bidder example, candidate A, absent from
`discarded`, is its group's selection. -/
theorem c4_discarded_amended_wit :
    (consolidate (2/5) exC1 = .ok rC1 ∧ exC1a ∈ exC1 ∧ exC1a ∉ rC1.discarded) ∧
    (groupSelection (2/5) (groupOf exC1 (bidderKey exC1a)) = some exC1a ∨
      ∃ c, groupSelection (2/5) (groupOf exC1 (bidderKey exC1a)) = some c ∧
        c ∈ rC1.discarded ∧ exC1a ≠ c) :=
  ⟨⟨by with_unfolding_all decide, by with_unfolding_all decide, by with_unfolding_all decide⟩,
   c4_discarded_amended (2/5) exC1 rC1 (by with_unfolding_all decide) exC1a
     (by with_unfolding_all decide) (by with_unfolding_all decide)⟩

/-- C5 amended: the returned confidence is the mean of the recorded
per-acceptance confidences rounded to 2 decimals, where each recorded value is
the accepted selection's confidence with an absent field defaulting to 0.5
(not 0.0; the 0.0 default applies only to filtering and ranking). -/
theorem c5_confidence_mean_amended (mc : ℚ) (bids : List BidCandidate) (r : ConsResult)
    (hok : consolidate mc bids = .ok r) :
    (∀ c : BidCandidate, c.confidence = none → confAgg c = 1/2) ∧
    r.confidence = (if (runGroups mc bids (groupKeysOf bids) initState).confidences = [] then 0
      else round2 ((runGroups mc bids (groupKeysOf bids) initState).confidences.sum /
        ((runGroups mc bids (groupKeysOf bids) initState).confidences.length : ℚ))) ∧
    ∀ q ∈ (runGroups mc bids (groupKeysOf bids) initState).confidences,
      ∃ k, k ∈ groupKeysOf bids ∧
        ∃ c, groupSelection mc (groupOf bids k) = some c ∧ q = confAgg c := by
  obtain ⟨-, -, -, -, -, hconf⟩ := consolidate_ok_inv hok
  refine ⟨?_, hconf, ?_⟩
  · intro c hc
    simp [confAgg, hc]
  · intro q hq
    rcases conf_origin_runGroups mc bids initState hq with h | h
    · cases h
    · exact h

/-- C5 counterexample: with `min_confidence = 0` a single candidate with an
absent confidence field is accepted, and the returned aggregate confidence is
0.5 (line 106 uses `selected.get("confidence", 0.5)`), not the 0.0 the claim
predicts from the spec's 0.0 default. -/
theorem c5_absent_confidence_cex :
    (consolidate 0 exC5).toOption.map ConsResult.confidence = some (1/2) ∧ ((1:ℚ)/2 ≠ 0) := by
  with_unfolding_all decide

/-- C5 witness: the two-bidder example's returned confidence satisfies the
amended characterization. -/
theorem c5_confidence_mean_amended_wit :
    (consolidate (2/5) exC1 = .ok rC1) ∧
    ((∀ c : BidCandidate, c.confidence = none → confAgg c = 1/2) ∧
     rC1.confidence = (if (runGroups (2/5) exC1 (groupKeysOf exC1) initState).confidences = []
        then 0
        else round2 ((runGroups (2/5) exC1 (groupKeysOf exC1) initState).confidences.sum /
          ((runGroups (2/5) exC1 (groupKeysOf exC1) initState).confidences.length : ℚ))) ∧
     ∀ q ∈ (runGroups (2/5) exC1 (groupKeysOf exC1) initState).confidences,
       ∃ k, k ∈ groupKeysOf exC1 ∧
         ∃ c, groupSelection (2/5) (groupOf exC1 k) = some c ∧ q = confAgg c) :=
  ⟨by with_unfolding_all decide,
   c5_confidence_mean_amended (2/5) exC1 rC1 (by with_unfolding_all decide)⟩

/-- C6 amended: both failure modes of `consolidate` raise the same `ValueError`
class and are distinguishable only by message: exactly the empty-input case
carries "No bid candidates provided" and exactly the exhaustion case carries
"No valid bids after consolidation". -/
theorem c6_error_distinction_amended (mc : ℚ) (bids : List BidCandidate) (e : PyError)
    (herr : consolidate mc bids = .error e) :
    e.cls = .valueError ∧ (bids = [] ↔ e.msg = "No bid candidates provided") ∧
    (bids ≠ [] ↔ e.msg = "No valid bids after consolidation") := by
  simp only [consolidate] at herr
  by_cases h1 : bids = []
  · rw [if_pos h1] at herr
    injection herr with he
    subst he
    exact ⟨rfl, iff_of_true h1 rfl, iff_of_false (fun hc => hc h1) (by decide)⟩
  · rw [if_neg h1] at herr
    by_cases h2 : (runGroups mc bids (groupKeysOf bids) initState).final_bids = []
    · rw [if_pos h2] at herr
      injection herr with he
      subst he
      exact ⟨rfl, iff_of_false h1 (by decide), iff_of_true h1 rfl⟩
    · rw [if_neg h2] at herr
      exact Except.noConfusion herr

/-- C6 counterexample: the empty-input failure and the no-valid-bids failure
both carry the same exception class (`ValueError`); they differ only in the
message string, so the two failure modes are not distinguishable by distinct
error types as the claim requires. -/
theorem c6_same_error_class_cex :
    (exErr (consolidate (2/5) ([] : List BidCandidate))).map PyError.cls
      = some PyExcClass.valueError ∧
    (exErr (consolidate (2/5) exC6low)).map PyError.cls = some PyExcClass.valueError ∧
    (exErr (consolidate (2/5) ([] : List BidCandidate))).map PyError.msg
      ≠ (exErr (consolidate (2/5) exC6low)).map PyError.msg := by
  with_unfolding_all decide

/-- C6 witness: the empty-input call produces the `ValueError` with the
empty-input message. -/
theorem c6_error_distinction_amended_wit :
    (consolidate (2/5) ([] : List BidCandidate)
      = .error ⟨.valueError, "No bid candidates provided"⟩) ∧
    ((⟨.valueError, "No bid candidates provided"⟩ : PyError).cls = .valueError ∧
     (([] : List BidCandidate) = [] ↔
       (⟨.valueError, "No bid candidates provided"⟩ : PyError).msg = "No bid candidates provided") ∧
     (([] : List BidCandidate) ≠ [] ↔
       (⟨.valueError, "No bid candidates provided"⟩ : PyError).msg
         = "No valid bids after consolidation")) :=
  ⟨by with_unfolding_all decide,
   c6_error_distinction_amended (2/5) [] ⟨.valueError, "No bid candidates provided"⟩
     (by with_unfolding_all decide)⟩

/-- C7: tax-inclusion preference boundary scenario.  For bidder "A" with
candidates (100, confidence 0.9, tax included) and (95, confidence 0.5, not tax
included), the tax-included candidate with amount 100 is selected and
`final_bids = [100]`. -/
theorem c7_tax_preference_boundary :
    groupSelection (2/5) (groupOf exC7 "A")
      = some ⟨some "A", some 100, some (9/10), some true, none⟩ ∧
    (consolidate (2/5) exC7).toOption.map ConsResult.final_bids = some [100] := by
  with_unfolding_all decide

/-- C3 counterexample: two candidates of the same bidder with equal confidence
and different amounts.  Swapping them (a within-group permutation) changes the
selected amount from 100 to 50, because ties break by stable-sort order, so
selection is not invariant under all within-group permutations. -/
theorem c3_perm_tie_cex :
    exC3L.Perm exC3R ∧ (∀ b ∈ exC3L, bidderKey b = "A") ∧
    (consolidate (2/5) exC3L).toOption.map ConsResult.final_bids = some [100] ∧
    (consolidate (2/5) exC3R).toOption.map ConsResult.final_bids = some [50] :=
  ⟨List.Perm.swap exC3b exC1a [], by with_unfolding_all decide,
   by with_unfolding_all decide, by with_unfolding_all decide⟩

/-- C3 amended: within-group order invariance holds when no two candidates of
the group share a confidence value — then any permutation of the group leaves
the selection unchanged (with tied confidences the first candidate in group
order wins, so only tie-order-preserving permutations are safe); and
`final_bids` follows first-appearance order of bidder keys: the amounts
accepted for any prefix of the key list form a prefix of `final_bids`. -/
theorem c3_order_invariance_amended (mc : ℚ) (g g2 : List BidCandidate) (hp : g.Perm g2)
    (hnd : (g.map confFilter).Nodup) (bids : List BidCandidate) (ks1 ks2 : List String)
    (hks : groupKeysOf bids = ks1 ++ ks2) :
    groupSelection mc g = groupSelection mc g2 ∧
    ∃ t, (runGroups mc bids (groupKeysOf bids) initState).final_bids
        = (runGroups mc bids ks1 initState).final_bids ++ t := by
  refine ⟨groupSelection_perm mc hp hnd, ?_⟩
  rw [hks, runGroups_append]
  exact fb_prefix_runGroups mc bids ks2 _

/-- C3 witness: a two-candidate group with distinct confidences has the same
selection after swapping, and the "A"-prefix of the example's key list
contributes a prefix of its `final_bids`. -/
theorem c3_order_invariance_amended_wit :
    (([exC1a, exC3c].map confFilter).Nodup ∧ groupKeysOf exC1 = ["A"] ++ ["B"]) ∧
    (groupSelection (2/5) [exC1a, exC3c] = groupSelection (2/5) [exC3c, exC1a] ∧
     ∃ t, (runGroups (2/5) exC1 (groupKeysOf exC1) initState).final_bids
        = (runGroups (2/5) exC1 ["A"] initState).final_bids ++ t) :=
  ⟨⟨by with_unfolding_all decide, by with_unfolding_all decide⟩,
   c3_order_invariance_amended (2/5) [exC1a, exC3c] [exC3c, exC1a]
     (List.Perm.swap exC3c exC1a []) (by with_unfolding_all decide) exC1 ["A"] ["B"]
     (by with_unfolding_all decide)⟩

/-- C8: degenerate-input failure for SKEW and KURT.  For every bid list whose
sample variance is zero (equivalently, zero sample standard deviation) and
which meets the cardinality minimum, `SkewnessAgent.compute` and
`KurtosisAgent.compute` return the degenerate-input `ValueError` instead of any
numeric result. -/
theorem c8_degenerate_std_raises (bids : List ℚ) (hvar : sampleVar bids = 0) :
    (3 ≤ bids.length → SkewnessAgent.compute bids
      = .error ⟨.valueError, "Standard deviation is zero, SKEW undefined"⟩) ∧
    (4 ≤ bids.length → KurtosisAgent.compute bids
      = .error ⟨.valueError, "Standard deviation is zero, KURT undefined"⟩) := by
  constructor
  · intro hlen
    simp only [SkewnessAgent.compute]
    rw [if_neg (by omega), if_pos hvar]
  · intro hlen
    simp only [KurtosisAgent.compute]
    rw [if_neg (by omega), if_pos hvar]

/-- C8 witness: the list [5, 5, 5, 5] has zero sample variance and both agents
fail with the degenerate-input error. -/
theorem c8_degenerate_std_raises_wit :
    sampleVar [5, 5, 5, 5] = 0 ∧
    ((3 ≤ ([5, 5, 5, 5] : List ℚ).length → SkewnessAgent.compute [5, 5, 5, 5]
      = .error ⟨.valueError, "Standard deviation is zero, SKEW undefined"⟩) ∧
     (4 ≤ ([5, 5, 5, 5] : List ℚ).length → KurtosisAgent.compute [5, 5, 5, 5]
      = .error ⟨.valueError, "Standard deviation is zero, KURT undefined"⟩)) :=
  ⟨by with_unfolding_all decide,
   c8_degenerate_std_raises [5, 5, 5, 5] (by with_unfolding_all decide)⟩

theorem firstCardFailure_cons (m : String) (rest : List String) (fb : List ℚ) :
    firstCardFailure (m :: rest) fb =
      match SCREENING_METRICS.lookup m with
      | some mn => if fb.length < mn then some (m, mn) else firstCardFailure rest fb
      | none => firstCardFailure rest fb := rfl

theorem firstCardFailure_cons_some {m : String} {mn : ℕ} (rest : List String) (fb : List ℚ)
    (hlk : SCREENING_METRICS.lookup m = some mn) :
    firstCardFailure (m :: rest) fb =
      if fb.length < mn then some (m, mn) else firstCardFailure rest fb := by
  rw [firstCardFailure_cons, hlk]

theorem firstCardFailure_cons_none {m : String} (rest : List String) (fb : List ℚ)
    (hlk : SCREENING_METRICS.lookup m = none) :
    firstCardFailure (m :: rest) fb = firstCardFailure rest fb := by
  rw [firstCardFailure_cons, hlk]

theorem firstCardFailure_none {requested : List String} {fb : List ℚ}
    (h : ∀ m ∈ requested, ∀ mn, SCREENING_METRICS.lookup m = some mn → mn ≤ fb.length) :
    firstCardFailure requested fb = none := by
  induction requested with
  | nil => rfl
  | cons m rest ih =>
    cases hlk : SCREENING_METRICS.lookup m with
    | none =>
      rw [firstCardFailure_cons_none rest fb hlk]
      exact ih (fun m2 hm2 mn hmn => h m2 (List.mem_cons_of_mem _ hm2) mn hmn)
    | some mn =>
      rw [firstCardFailure_cons_some rest fb hlk,
        if_neg (by have := h m (List.mem_cons_self _ _) mn hlk; omega)]
      exact ih (fun m2 hm2 mn2 hmn2 => h m2 (List.mem_cons_of_mem _ hm2) mn2 hmn2)

theorem firstCardFailure_some {requested : List String} {fb : List ℚ} {m0 : String} {mn0 : ℕ}
    (hm0 : m0 ∈ requested) (hlk0 : SCREENING_METRICS.lookup m0 = some mn0)
    (hlt0 : fb.length < mn0) :
    ∃ m mn, SCREENING_METRICS.lookup m = some mn ∧ fb.length < mn ∧
      firstCardFailure requested fb = some (m, mn) := by
  induction requested with
  | nil => cases hm0
  | cons m1 rest ih =>
    cases hlk : SCREENING_METRICS.lookup m1 with
    | none =>
      rw [firstCardFailure_cons_none rest fb hlk]
      rcases List.mem_cons.mp hm0 with rfl | hm2
      · rw [hlk] at hlk0
        cases hlk0
      · exact ih hm2
    | some mn1 =>
      rw [firstCardFailure_cons_some rest fb hlk]
      by_cases hlt : fb.length < mn1
      · rw [if_pos hlt]
        exact ⟨m1, mn1, hlk, hlt, rfl⟩
      · rw [if_neg hlt]
        rcases List.mem_cons.mp hm0 with rfl | hm2
        · rw [hlk] at hlk0
          injection hlk0 with he
          omega
        · exact ih hm2

/-- C9: all-or-nothing metric dispatch.  With every requested metric supported,
if every requested metric's cardinality minimum is met the dispatch computes
every requested metric; if any requested metric's minimum exceeds the number of
final bids, the dispatch fails with an insufficient-bids error that is
independent of the calculation agents (no agent is invoked), for any two agent
assignments of any result types. -/
theorem c9_all_or_nothing_dispatch (α β : Type) (agents : String → List ℚ → α)
    (agents2 : String → List ℚ → β) (requested : List String) (fb : List ℚ)
    (hsupp : ∀ m ∈ requested, (SCREENING_METRICS.lookup m).isSome = true) :
    ((∀ m ∈ requested, ∀ mn, SCREENING_METRICS.lookup m = some mn → mn ≤ fb.length) →
      screeningDispatch agents requested fb
        = .ok (requested.map (fun m => (m, agents m fb)))) ∧
    (∀ m0 ∈ requested, ∀ mn0, SCREENING_METRICS.lookup m0 = some mn0 → fb.length < mn0 →
      ∃ m mn, SCREENING_METRICS.lookup m = some mn ∧ fb.length < mn ∧
        screeningDispatch agents requested fb = .error (.insufficientBids m fb.length mn) ∧
        screeningDispatch agents2 requested fb = .error (.insufficientBids m fb.length mn)) := by
  have hfind : requested.find? (fun m => (SCREENING_METRICS.lookup m).isNone) = none := by
    rw [List.find?_eq_none]
    intro x hx
    have h1 := hsupp x hx
    cases hl : SCREENING_METRICS.lookup x with
    | none => simp [hl] at h1
    | some mn => simp [hl]
  constructor
  · intro hall
    simp only [screeningDispatch, hfind, firstCardFailure_none hall]
  · intro m0 hm0 mn0 hlk0 hlt0
    obtain ⟨m, mn, hlk, hlt, hfc⟩ := firstCardFailure_some hm0 hlk0 hlt0
    exact ⟨m, mn, hlk, hlt, by simp only [screeningDispatch, hfind, hfc],
      by simp only [screeningDispatch, hfind, hfc]⟩

/-- C9 witness: requesting ["cv", "kurt"] on three bids fails on kurt's
minimum of four for both of two different agent assignments. -/
theorem c9_all_or_nothing_dispatch_wit :
    (∀ m ∈ (["cv", "kurt"] : List String), (SCREENING_METRICS.lookup m).isSome = true) ∧
    (((∀ m ∈ (["cv", "kurt"] : List String), ∀ mn, SCREENING_METRICS.lookup m = some mn →
        mn ≤ ([1, 2, 3] : List ℚ).length) →
      screeningDispatch (fun _ _ => (0 : ℚ)) ["cv", "kurt"] [1, 2, 3]
        = .ok ((["cv", "kurt"] : List String).map (fun m => (m, (0 : ℚ))))) ∧
     (∀ m0 ∈ (["cv", "kurt"] : List String), ∀ mn0, SCREENING_METRICS.lookup m0 = some mn0 →
        ([1, 2, 3] : List ℚ).length < mn0 →
        ∃ m mn, SCREENING_METRICS.lookup m = some mn ∧ ([1, 2, 3] : List ℚ).length < mn ∧
          screeningDispatch (fun _ _ => (0 : ℚ)) ["cv", "kurt"] [1, 2, 3]
            = .error (.insufficientBids m ([1, 2, 3] : List ℚ).length mn) ∧
          screeningDispatch (fun _ _ => true) ["cv", "kurt"] [1, 2, 3]
            = .error (.insufficientBids m ([1, 2, 3] : List ℚ).length mn))) :=
  ⟨by with_unfolding_all decide,
   c9_all_or_nothing_dispatch ℚ Bool (fun _ _ => 0) (fun _ _ => true) ["cv", "kurt"] [1, 2, 3]
     (by with_unfolding_all decide)⟩
